import Mathlib

/-!
Verification of the `json.ts` library (a typed façade over the host
JavaScript `JSON.parse` / `JSON.stringify` pair) against its
natural-language specification.

The development shallowly embeds the JavaScript runtime values the library
manipulates, the library's own code (`src/JSON.ts`: the six type
predicates, the `parse` and `stringify` adapters and the `match`
dispatcher), its external `Result` dependency (`result.ts`), and a
concrete model of the host JSON engine (an external collaborator of the
repository: ECMAScript `JSON.parse`/`JSON.stringify` restricted to the
embedded value domain, with JSON numbers modelled as integers since
floating point is out of scope).
-/

set_option maxHeartbeats 1000000

/-- JavaScript runtime values relevant to the library: the JSON value
variants (`null`, booleans, numbers, strings, arrays, objects) plus
`undefined` (the host's absence marker).  An object carries the
`constructor.name` the host would report for it: `some "Object"` for a
plain object, `some n` for an instance of a class named `n`, and `none`
for a prototype-less object (`Object.create(null)`), whose `constructor`
property is `undefined`.  Numbers are modelled as integers. -/
inductive JSValue where
  | null : JSValue
  | undefined : JSValue
  | boolean (b : Bool) : JSValue
  | number (n : Int) : JSValue
  | string (s : String) : JSValue
  | array (elems : List JSValue) : JSValue
  | object (fields : List (String × JSValue)) (ctor : Option String) : JSValue

/-- The `Result` type from the external `result.ts` dependency: exactly one
of `ok v` / `error e`. -/
inductive Result (x : Type) (a : Type) where
  | error (e : x) : Result x a
  | ok (v : a) : Result x a
deriving DecidableEq, Repr

/-- `Result.toMaybe` from `result.ts`: `some v` on `ok`, `none` on `error`. -/
def Result.toMaybe : Result x a → Option a
  | .error _ => none
  | .ok v => some v

/-- `Result.toValue` from `result.ts`: unwrap-or-default. -/
def Result.toValue (fallback : a) : Result x a → a
  | .error _ => fallback
  | .ok v => v

/-- A JavaScript `Error` object as the library observes it: a `name`
(e.g. "Error", "TypeError", "SyntaxError") and a `message`. -/
structure JSError where
  name : String
  message : String
deriving DecidableEq, Repr

/-- JavaScript `typeof` on the embedded values. -/
def jsTypeof : JSValue → String
  | .null => "object"
  | .undefined => "undefined"
  | .boolean _ => "boolean"
  | .number _ => "number"
  | .string _ => "string"
  | .array _ => "object"
  | .object _ _ => "object"

/-- JavaScript loose equality against `null` (`value == null`): true
exactly on `null` and `undefined`. -/
def looseEqNull : JSValue → Bool
  | .null => true
  | .undefined => true
  | _ => false

/-- Modelled from the spec: the `is` predicate of the repository's
`./Array` module (imported by `src/JSON.ts` but not present under `src/`).
Per §4.1 of the spec it is the dedicated is-array runtime check
distinguishing a JSON array from a JSON object (`Array.isArray`). -/
def array.is : JSValue → Bool
  | .array _ => true
  | _ => false

/-- `isNull` from `src/JSON.ts`: `value === null` (strict equality against
the `null` value). -/
def isNull (value : JSValue) : Bool :=
  match value with
  | .null => true
  | _ => false

/-- `isBoolean` from `src/JSON.ts`: `typeof value === 'boolean'`. -/
def isBoolean (value : JSValue) : Bool :=
  jsTypeof value = "boolean"

/-- `isNumber` from `src/JSON.ts`: `typeof value === 'number'`. -/
def isNumber (value : JSValue) : Bool :=
  jsTypeof value = "number"

/-- `isString` from `src/JSON.ts`: `typeof value === 'string'`. -/
def isString (value : JSValue) : Bool :=
  jsTypeof value = "string"

/-- `isArray` from `src/JSON.ts`: delegates to `array.is`. -/
def isArray (value : JSValue) : Bool :=
  array.is value

/-- Evaluation of `value.constructor.name`, which can throw: on `null` and
`undefined` reading `.constructor` throws a TypeError; on a prototype-less
object `.constructor` is `undefined`, so reading `.name` on it throws a
TypeError; primitives are boxed and report their wrapper class name. -/
def constructorName : JSValue → Except JSError String
  | .null => .error ⟨"TypeError", "Cannot read properties of null"⟩
  | .undefined => .error ⟨"TypeError", "Cannot read properties of undefined"⟩
  | .boolean _ => .ok "Boolean"
  | .number _ => .ok "Number"
  | .string _ => .ok "String"
  | .array _ => .ok "Array"
  | .object _ ctor =>
    match ctor with
    | some n => .ok n
    | none => .error ⟨"TypeError", "Cannot read properties of undefined"⟩

/-- `isObject` from `src/JSON.ts`:
`value != null && value.constructor.name === 'Object'`.  The conjunction
short-circuits, and the right-hand side may throw, so the result is an
`Except`. -/
def isObject (value : JSValue) : Except JSError Bool :=
  if looseEqNull value then .ok false
  else
    match constructorName value with
    | .error e => .error e
    | .ok n => .ok (n = "Object")

mutual

/-- Recursive well-formedness of a `JSValue` as a JSON `Value` (§3 of the
spec): no `undefined`, every array element and object member value is
itself well-formed, and objects are the plain objects the host parser
produces (constructor name "Object"). -/
def wellFormed : JSValue → Bool
  | .null => true
  | .undefined => false
  | .boolean _ => true
  | .number _ => true
  | .string _ => true
  | .array elems => wellFormedList elems
  | .object fields ctor => ctor = some "Object" && wellFormedFields fields

/-- Well-formedness of a list of array elements. -/
def wellFormedList : List JSValue → Bool
  | [] => true
  | v :: rest => wellFormed v && wellFormedList rest

/-- Well-formedness of a list of object members. -/
def wellFormedFields : List (String × JSValue) → Bool
  | [] => true
  | (_, v) :: rest => wellFormed v && wellFormedFields rest

end

/-- Left brace character (written via its code point). -/
def lbrace : Char := Char.ofNat 123

/-- Right brace character (written via its code point). -/
def rbrace : Char := Char.ofNat 125

/-- A value that could be thrown by the host serializer: either a value
that is `instanceof Error`, or any other JavaScript value. -/
inductive Thrown where
  | errorObj (e : JSError) : Thrown
  | value (v : JSValue) : Thrown

/-- The `CaughtError` type from `src/JSON.ts`: an `Error` (name, message)
extended with the optional `coughtError` field holding an originally
thrown non-`Error` value. -/
structure CaughtError where
  name : String
  message : String
  coughtError : Option JSValue

/-- True exactly on `undefined`. -/
def isUndef : JSValue → Bool
  | .undefined => true
  | _ => false

/-- The decimal digit character for `d < 10`. -/
def digitChar (d : Nat) : Char := Char.ofNat (48 + d)

/-- Decimal digits of a natural number, most significant first. -/
def natDigits (n : Nat) : List Char :=
  if _ : n < 10 then [digitChar n]
  else natDigits (n / 10) ++ [digitChar (n % 10)]
termination_by n
decreasing_by exact Nat.div_lt_self (by omega) (by omega)

/-- Decimal rendering of an integer, as the host prints JSON numbers. -/
def intDigits (n : Int) : List Char :=
  if n < 0 then '-' :: natDigits n.natAbs else natDigits n.natAbs

mutual

/-- JavaScript string conversion (`String(value)` / template-literal
interpolation) on the embedded values, which can itself throw: arrays
join their elements with commas (with `null`/`undefined` elements
rendered empty), and objects with a prototype render through
`Object.prototype.toString` as "[object Object]" (custom `toString`
overrides are not expressible in the embedding), but a prototype-less
object (`ctor = none`) has no `toString`/`valueOf`/`Symbol.toPrimitive`,
so converting it to a string throws a TypeError. -/
def jsToString : JSValue → Except JSError String
  | .null => .ok "null"
  | .undefined => .ok "undefined"
  | .boolean b => .ok (if b then "true" else "false")
  | .number n => .ok (String.mk (intDigits n))
  | .string s => .ok s
  | .array elems => jsToStringElems elems
  | .object _ ctor =>
    match ctor with
    | some _ => .ok "[object Object]"
    | none => .error ⟨"TypeError", "Cannot convert object to primitive value"⟩
termination_by v => (sizeOf v, 0)

/-- Comma-joined element rendering used by JavaScript array `toString`;
a throw from converting any element propagates. -/
def jsToStringElems : List JSValue → Except JSError String
  | [] => .ok ""
  | [v] => jsToStringElem v
  | v :: rest =>
    match jsToStringElem v with
    | .error e => .error e
    | .ok s1 =>
      match jsToStringElems rest with
      | .error e => .error e
      | .ok s2 => .ok (s1 ++ "," ++ s2)
termination_by l => (sizeOf l, 2)

/-- One array element in JavaScript array `toString`: `null` and
`undefined` render as the empty string. -/
def jsToStringElem : JSValue → Except JSError String
  | .null => .ok ""
  | .undefined => .ok ""
  | v => jsToString v
termination_by v => (sizeOf v, 1)

end

/-- The `parse` adapter of `src/JSON.ts` applied to an arbitrary host
parser outcome (either the parsed value, possibly `undefined` when a
reviver discarded the root, or a thrown error): `try { ... } catch`
returning `Err` on a throw, and normalizing a result that is `== null`
(i.e. `null` or `undefined`) to `Ok(null)`. -/
def parseWith (outcome : Except JSError JSValue) : Result JSError JSValue :=
  match outcome with
  | .ok json => if looseEqNull json then .ok JSValue.null else .ok json
  | .error exception => .error exception

/-- The `stringify` adapter of `src/JSON.ts` applied to an arbitrary host
serializer outcome (either the produced text, `none` when the top-level
value was filtered away, or a thrown value): a `none` result is replaced
by `Ok("null")`; a thrown `Error` is forwarded unchanged; any other
thrown value is wrapped in a new `Error` whose message embeds its textual
rendering (the template literal of line 274) and whose `coughtError`
field holds it.  The template literal itself performs string conversion
on the caught value, and that conversion can throw (for a prototype-less
object); such a throw happens inside the `catch` block and escapes
`stringify` uncaught, so the adapter's overall outcome is an `Except`:
`.ok` a returned `Result`, `.error` an exception that propagated out. -/
def stringifyWith (outcome : Except Thrown (Option String)) :
    Except JSError (Result CaughtError String) :=
  match outcome with
  | .ok json =>
    match json with
    | none => .ok (.ok "null")
    | some text => .ok (.ok text)
  | .error exception =>
    match exception with
    | .errorObj e => .ok (.error ⟨e.name, e.message, none⟩)
    | .value v =>
      match jsToString v with
      | .ok rendered =>
        .ok (.error ⟨"Error",
          "JSON.stringify has thrown non Error exception: " ++ rendered,
          some v⟩)
      | .error e => .error e

/-- String escaping performed by the host serializer, restricted to the
characters the model needs: `"` and `\` are escaped with a backslash. -/
def escapeChars : List Char → List Char
  | [] => []
  | c :: rest =>
    if c = '"' then '\\' :: '"' :: escapeChars rest
    else if c = '\\' then '\\' :: '\\' :: escapeChars rest
    else c :: escapeChars rest

/-- A JSON string literal: the escaped characters between quotes. -/
def renderString (s : String) : List Char :=
  '"' :: (escapeChars s.toList ++ ['"'])

mutual

/-- Model of the host serializer's text for one (non-absent) value: the
JSON rendering, with `undefined` array elements printed as `null` and
`undefined`-valued object members dropped, as ECMAScript
`JSON.stringify` does. -/
def render : JSValue → List Char
  | .null => "null".toList
  | .undefined => "null".toList
  | .boolean b => if b then "true".toList else "false".toList
  | .number n => intDigits n
  | .string s => renderString s
  | .array elems => '[' :: (renderElems elems ++ [']'])
  | .object fields _ => lbrace :: (renderMembers fields ++ [rbrace])
termination_by v => sizeOf v

/-- Comma-separated renderings of array elements. -/
def renderElems : List JSValue → List Char
  | [] => []
  | [v] => render v
  | v :: rest => render v ++ (',' :: renderElems rest)
termination_by l => sizeOf l

/-- Comma-separated renderings of object members; a member whose value is
`undefined` is dropped, as ECMAScript `JSON.stringify` drops it. -/
def renderMembers : List (String × JSValue) → List Char
  | [] => []
  | (k, v) :: rest =>
    if isUndef v then renderMembers rest
    else
      renderString k ++ (':' :: render v) ++
        (if rest.any (fun p => !isUndef p.2) then ',' :: renderMembers rest
         else [])
termination_by fs => sizeOf fs

end

/-- Model of the host serializer `JSON.stringify(value)`: `none` (the
absence marker `undefined`) when the top-level value serializes to
nothing, otherwise the JSON text. -/
def jsonStringify (v : JSValue) : Option String :=
  match v with
  | .undefined => none
  | v => some (String.mk (render v))

/-- `stringify` from `src/JSON.ts` (no replacer, no spacing), with the
host serializer instantiated to its concrete model: on the embedded value
domain the host cannot throw (there are no property accessors and no
cycles), so only the `try` body ever runs — the
`json == null ? ok('null') : ok(json)` ternary of lines 262-267.
`stringify_eq_adapter` proves this agrees with `stringifyWith` applied to
the host outcome. -/
def stringify (value : JSValue) : Result CaughtError String :=
  match jsonStringify value with
  | none => .ok "null"
  | some text => .ok text

/-- JSON whitespace. -/
def isWs (c : Char) : Bool :=
  c = ' ' || c = '\t' || c = '\n' || c = '\r'

/-- Skip leading JSON whitespace. -/
def skipWs (input : List Char) : List Char :=
  input.dropWhile isWs

/-- Numeric value of a digit string (fold over decimal digits). -/
def digitsVal (ds : List Char) : Nat :=
  ds.foldl (fun acc c => 10 * acc + (c.toNat - 48)) 0

/-- True when the input does not begin with a decimal digit (so a number
ending right before it is maximal). -/
def noDigitHead : List Char → Bool
  | [] => true
  | c :: _ => !c.isDigit

/-- Parse a maximal nonempty run of decimal digits. -/
def parseNat (input : List Char) : Option (Nat × List Char) :=
  match input.takeWhile Char.isDigit with
  | [] => none
  | d :: ds => some (digitsVal (d :: ds), input.dropWhile Char.isDigit)

/-- Parse a JSON number (integer grammar: optional minus then digits). -/
def parseNumber : List Char → Option (Int × List Char)
  | [] => none
  | c :: rest =>
    if c = '-' then
      match parseNat rest with
      | none => none
      | some (n, r) => some (-(n : Int), r)
    else
      match parseNat (c :: rest) with
      | none => none
      | some (n, r) => some ((n : Int), r)

/-- Unescape one escaped character of a JSON string literal. -/
def escChar (c : Char) : Option Char :=
  if c = '"' then some '"'
  else if c = '\\' then some '\\'
  else if c = '/' then some '/'
  else if c = 'n' then some '\n'
  else if c = 't' then some '\t'
  else if c = 'r' then some '\r'
  else if c = 'b' then some (Char.ofNat 8)
  else if c = 'f' then some (Char.ofNat 12)
  else none

mutual

/-- Parse the body of a JSON string literal after the opening quote, up to
and including the closing quote; returns the unescaped characters. -/
def parseStringBody : List Char → Option (List Char × List Char)
  | [] => none
  | c :: rest =>
    if c = '"' then some ([], rest)
    else if c = '\\' then parseEscape rest
    else
      match parseStringBody rest with
      | none => none
      | some (s, r) => some (c :: s, r)

/-- Parse the continuation of a string literal after a backslash. -/
def parseEscape : List Char → Option (List Char × List Char)
  | [] => none
  | e :: rest =>
    match escChar e with
    | none => none
    | some c₁ =>
      match parseStringBody rest with
      | none => none
      | some (s, r) => some (c₁ :: s, r)

end

/-- Check and drop an expected literal continuation. -/
def dropLit : List Char → List Char → Option (List Char)
  | [], input => some input
  | c :: cs, input =>
    match input with
    | [] => none
    | d :: rest => if d = c then dropLit cs rest else none

mutual

/-- Model of the host parser's value grammar (fueled recursive descent):
parse one JSON value from the input, returning it with the unconsumed
remainder.  Objects are built as plain objects (constructor name
"Object"), as `JSON.parse` builds them. -/
def parseValue : Nat → List Char → Option (JSValue × List Char)
  | 0, _ => none
  | fuel + 1, input =>
    match skipWs input with
    | [] => none
    | c :: rest =>
      if c = 'n' then
        match dropLit ['u', 'l', 'l'] rest with
        | none => none
        | some r => some (JSValue.null, r)
      else if c = 't' then
        match dropLit ['r', 'u', 'e'] rest with
        | none => none
        | some r => some (JSValue.boolean true, r)
      else if c = 'f' then
        match dropLit ['a', 'l', 's', 'e'] rest with
        | none => none
        | some r => some (JSValue.boolean false, r)
      else if c = '"' then
        match parseStringBody rest with
        | none => none
        | some (s, r) => some (JSValue.string (String.mk s), r)
      else if c = '[' then
        match skipWs rest with
        | [] => none
        | c₂ :: r₂ =>
          if c₂ = ']' then some (JSValue.array [], r₂)
          else
            match parseElements fuel rest with
            | none => none
            | some (elems, r) => some (JSValue.array elems, r)
      else if c = lbrace then
        match skipWs rest with
        | [] => none
        | c₂ :: r₂ =>
          if c₂ = rbrace then some (JSValue.object [] (some "Object"), r₂)
          else
            match parseMembers fuel rest with
            | none => none
            | some (fields, r) => some (JSValue.object fields (some "Object"), r)
      else if c = '-' then
        match parseNumber (c :: rest) with
        | none => none
        | some (n, r) => some (JSValue.number n, r)
      else if c.isDigit then
        match parseNumber (c :: rest) with
        | none => none
        | some (n, r) => some (JSValue.number n, r)
      else none

/-- Parse a nonempty comma-separated element list followed by `]`. -/
def parseElements : Nat → List Char → Option (List JSValue × List Char)
  | 0, _ => none
  | fuel + 1, input =>
    match parseValue fuel input with
    | none => none
    | some (v, rest) =>
      match skipWs rest with
      | ',' :: rest₁ =>
        match parseElements fuel rest₁ with
        | none => none
        | some (elems, r) => some (v :: elems, r)
      | ']' :: rest₁ => some ([v], rest₁)
      | _ => none

/-- Parse a nonempty comma-separated member list followed by the closing
brace. -/
def parseMembers : Nat → List Char → Option (List (String × JSValue) × List Char)
  | 0, _ => none
  | fuel + 1, input =>
    match skipWs input with
    | '"' :: rest =>
      match parseStringBody rest with
      | none => none
      | some (key, rest₁) =>
        match skipWs rest₁ with
        | ':' :: rest₂ =>
          match parseValue fuel rest₂ with
          | none => none
          | some (v, rest₃) =>
            match skipWs rest₃ with
            | ',' :: rest₄ =>
              match parseMembers fuel rest₄ with
              | none => none
              | some (fields, r) => some ((String.mk key, v) :: fields, r)
            | c :: rest₄ =>
              if c = rbrace then some ([(String.mk key, v)], rest₄) else none
            | [] => none
        | _ => none
    | _ => none

end

/-- Model of the host parser `JSON.parse(input)` (no reviver): parse one
value, require only whitespace after it, and report a `SyntaxError`
otherwise.  The fuel `input.length` suffices because every parsed value
consumes at least one character per recursion level. -/
def jsonParse (input : String) : Except JSError JSValue :=
  let cs := input.toList
  match parseValue cs.length cs with
  | some (v, rest) =>
    if (skipWs rest).isEmpty then .ok v
    else .error ⟨"SyntaxError", "Unexpected non-whitespace character after JSON data"⟩
  | none => .error ⟨"SyntaxError", "Unexpected end of JSON input"⟩

/-- `parse` from `src/JSON.ts` (no reviver), with the host parser
instantiated to its concrete model. -/
def parse (input : String) : Result JSError JSValue :=
  parseWith (jsonParse input)

mutual

/-- Structural size of a value: the fuel needed to parse it. -/
def sizeVal : JSValue → Nat
  | .array elems => 1 + sizeList elems
  | .object fields _ => 1 + sizeFields fields
  | _ => 1
termination_by v => sizeOf v

/-- Structural size of an element list. -/
def sizeList : List JSValue → Nat
  | [] => 0
  | v :: rest => 1 + sizeVal v + sizeList rest
termination_by l => sizeOf l

/-- Structural size of a member list. -/
def sizeFields : List (String × JSValue) → Nat
  | [] => 0
  | (_, v) :: rest => 1 + sizeVal v + sizeFields rest
termination_by fs => sizeOf fs

end

/-- The `match` function from `src/JSON.ts`: takes one handler per JSON
variant and returns the composite dispatcher, which switches on
`typeof value` and, in the reference-like branch, checks `value == null`
first, then `isArray`, and otherwise falls through to the object
handler. -/
def matchValue (Null Boolean Number String Array Object : JSValue → a)
    (value : JSValue) : a :=
  match jsTypeof value with
  | "number" => Number value
  | "boolean" => Boolean value
  | "string" => String value
  | _ =>
    if looseEqNull value then Null value
    else if isArray value then Array value
    else Object value

/-! ## Basic facts about the value model and the predicates -/

/-- A well-formed value is never `undefined`. -/
theorem wellFormed_not_undef (v : JSValue) (h : wellFormed v = true) :
    isUndef v = false := by
  cases v <;> simp_all [wellFormed, isUndef]

/-- The parse adapter maps a successful host outcome that is not loosely
null through unchanged, and normalizes `null`/`undefined` to `Ok(null)`. -/
theorem parseWith_ok (j : JSValue) :
    parseWith (.ok j) = .ok (if looseEqNull j then JSValue.null else j) := by
  unfold parseWith
  by_cases h : looseEqNull j <;> simp [h]

/-- On well-formed values the parse adapter is the identity on successes. -/
theorem parseWith_ok_wf (v : JSValue) (h : wellFormed v = true) :
    parseWith (.ok v) = .ok v := by
  cases v <;> simp_all [parseWith, looseEqNull, wellFormed]

/-! ## C2, C5, C6, C7, C10: the adapter contracts -/

/-- C2: `parse` never throws; it returns `Err` exactly when the host
parser throws, carrying the host's thrown error unchanged, and returns
`Ok` (with the loose-null normalization) on every host success; the empty
string is malformed and yields `Err`. -/
theorem parse_err_iff_host_throws :
    (∀ s : String,
      (match jsonParse s with
       | .error e => parse s = .error e
       | .ok j => parse s = .ok (if looseEqNull j then JSValue.null else j))) ∧
    parse "" = .error ⟨"SyntaxError", "Unexpected end of JSON input"⟩ := by
  constructor
  · intro s
    unfold parse
    cases h : jsonParse s with
    | error e => simp [parseWith]
    | ok j => exact parseWith_ok j
  · rfl

/-- C5 (amended): when the host serializer throws, a standard `Error` is
returned unchanged as `Err` (no `coughtError` set); any other thrown
value is wrapped in a synthetic `Err` whose message embeds its textual
rendering and whose `coughtError` field holds the value — provided that
rendering succeeds; when the rendering itself throws (a prototype-less
object, which has no way to convert to a primitive), that TypeError
escapes `stringify` uncaught instead of being returned as `Err`.  The
rendering of the number `2` is the text "2". -/
theorem stringify_error_normalization :
    (∀ name msg, stringifyWith (.error (.errorObj ⟨name, msg⟩)) =
      .ok (.error ⟨name, msg, none⟩)) ∧
    (∀ v, stringifyWith (.error (.value v)) =
      (match jsToString v with
       | .ok rendered =>
         .ok (.error ⟨"Error",
           "JSON.stringify has thrown non Error exception: " ++ rendered,
           some v⟩)
       | .error e => .error e)) ∧
    jsToString (JSValue.number 2) = .ok "2" := by
  refine ⟨fun _ _ => rfl, fun _ => rfl, ?_⟩
  rw [jsToString, intDigits]
  norm_num
  rw [natDigits]
  norm_num [digitChar]

/-- Counterexample to C5 as stated: when the thrown value is a
prototype-less object, the claimed `Err(syntheticError)` is not returned
at all — the template literal's string conversion throws inside the
`catch` block, and that TypeError propagates out of `stringify`. -/
theorem stringify_error_normalization_counterexample :
    stringifyWith (.error (.value (JSValue.object [] none))) =
      .error ⟨"TypeError", "Cannot convert object to primitive value"⟩ ∧
    jsToString (JSValue.object [] none) =
      .error ⟨"TypeError", "Cannot convert object to primitive value"⟩ := by
  have hj : jsToString (JSValue.object [] none) =
      .error ⟨"TypeError", "Cannot convert object to primitive value"⟩ := by
    rw [jsToString]
  exact ⟨by simp [stringifyWith, hj], hj⟩

/-- The concrete `stringify` (whose host model never throws) agrees with
the general adapter applied to the host outcome: nothing escapes, and the
returned `Result` is the same. -/
theorem stringify_eq_adapter (v : JSValue) :
    stringifyWith (.ok (jsonStringify v)) = .ok (stringify v) := by
  cases h : jsonStringify v <;> simp [stringify, stringifyWith, h]

/-- C6: when the host serializer returns its absence marker, `stringify`
returns `Ok("null")` (and nothing is thrown), and parsing that text
yields `Ok(null)`; concretely, the host returns the absence marker on an
`undefined` root. -/
theorem stringify_absence_is_null_text :
    stringifyWith (.ok none) = .ok (.ok "null") ∧
    parse "null" = .ok JSValue.null ∧
    stringify JSValue.undefined = .ok "null" :=
  ⟨rfl, rfl, rfl⟩

/-- C7: when the host parser returns its absence marker (the reviver
discarded the root), `parse` returns the success value `Ok(null)`. -/
theorem parse_absence_is_null :
    parseWith (.ok JSValue.undefined) = .ok JSValue.null := rfl

/-- C10: a successful `parse` never yields `Ok(undefined)`: every host
success loosely equal to null is normalized to `Ok(null)`, so parsing the
text "null" and a parse whose reviver omitted the root are
indistinguishable. -/
theorem parse_normalizes_loose_null :
    (∀ o : Except JSError JSValue,
      (match parseWith o with
       | .ok v => isUndef v
       | .error _ => false) = false) ∧
    (∀ j, parseWith (.ok j) = .ok (if looseEqNull j then JSValue.null else j)) ∧
    parseWith (.ok JSValue.undefined) = parse "null" := by
  refine ⟨fun o => ?_, parseWith_ok, rfl⟩
  cases o with
  | error e => rfl
  | ok j => cases j <;> rfl

/-! ## C3, C9: the match dispatcher -/

/-- C3: the dispatcher built by `match` sends each value to exactly the
handler of its variant, applied exactly once to the value itself: on each
constructor of the value domain it equals the corresponding handler
application. -/
theorem match_dispatches_by_variant {a : Type}
    (hNull hBool hNum hStr hArr hObj : JSValue → a) :
    matchValue hNull hBool hNum hStr hArr hObj JSValue.null =
      hNull JSValue.null ∧
    (∀ b, matchValue hNull hBool hNum hStr hArr hObj (JSValue.boolean b) =
      hBool (JSValue.boolean b)) ∧
    (∀ n, matchValue hNull hBool hNum hStr hArr hObj (JSValue.number n) =
      hNum (JSValue.number n)) ∧
    (∀ s, matchValue hNull hBool hNum hStr hArr hObj (JSValue.string s) =
      hStr (JSValue.string s)) ∧
    (∀ elems, matchValue hNull hBool hNum hStr hArr hObj (JSValue.array elems) =
      hArr (JSValue.array elems)) ∧
    (∀ fields ctor,
      matchValue hNull hBool hNum hStr hArr hObj (JSValue.object fields ctor) =
      hObj (JSValue.object fields ctor)) :=
  ⟨rfl, fun _ => rfl, fun _ => rfl, fun _ => rfl, fun _ => rfl, fun _ _ => rfl⟩

/-- C9: the dispatcher never consults `isObject`: any non-null value whose
runtime type is neither number, boolean nor string and which is not an
array is sent to the object handler. -/
theorem match_object_is_complement {a : Type}
    (hNull hBool hNum hStr hArr hObj : JSValue → a) (v : JSValue)
    (h1 : jsTypeof v ≠ "number") (h2 : jsTypeof v ≠ "boolean")
    (h3 : jsTypeof v ≠ "string") (h4 : looseEqNull v = false)
    (h5 : isArray v = false) :
    matchValue hNull hBool hNum hStr hArr hObj v = hObj v := by
  cases v <;> simp_all [jsTypeof, looseEqNull, isArray, array.is, matchValue]

/-- Witness for C9: a prototype-less object (on which `isObject` throws a
TypeError rather than returning a boolean) satisfies all the hypotheses
and is dispatched to the object handler. -/
theorem match_object_is_complement_witness :
    matchValue (fun _ => 0) (fun _ => 1) (fun _ => 2) (fun _ => 3)
      (fun _ => 4) (fun _ => 5) (JSValue.object [] none) = 5 ∧
    isObject (JSValue.object [] none) =
      .error ⟨"TypeError", "Cannot read properties of undefined"⟩ :=
  ⟨match_object_is_complement _ _ _ _ _ _ (JSValue.object [] none)
    (by decide) (by decide) (by decide) (by decide) (by decide), rfl⟩

/-! ## C4, C8: the six predicates -/

/-- C4: on every well-formed value the six predicates are mutually
exclusive and collectively exhaustive: `isObject` returns a boolean (it
does not throw) and exactly one of the six results is `true`. -/
theorem predicates_partition (v : JSValue) (h : wellFormed v = true) :
    ∃ b, isObject v = .ok b ∧
      ([isNull v, isBoolean v, isNumber v, isString v, isArray v, b].count true
        = 1) := by
  cases v with
  | null => exact ⟨false, rfl, by decide⟩
  | undefined => simp [wellFormed] at h
  | boolean b =>
    refine ⟨false, rfl, ?_⟩
    simp [isNull, isBoolean, isNumber, isString, isArray, array.is, jsTypeof]
  | number n =>
    refine ⟨false, rfl, ?_⟩
    simp [isNull, isBoolean, isNumber, isString, isArray, array.is, jsTypeof]
  | string s =>
    refine ⟨false, rfl, ?_⟩
    simp [isNull, isBoolean, isNumber, isString, isArray, array.is, jsTypeof]
  | array elems =>
    refine ⟨false, rfl, ?_⟩
    simp [isNull, isBoolean, isNumber, isString, isArray, array.is, jsTypeof]
  | object fields ctor =>
    have hctor : ctor = some "Object" := by
      simp [wellFormed, Bool.and_eq_true] at h
      exact h.1
    subst hctor
    refine ⟨true, rfl, ?_⟩
    simp [isNull, isBoolean, isNumber, isString, isArray, array.is, jsTypeof]

/-- Witness for C4 at a concrete object value. -/
theorem predicates_partition_witness :
    wellFormed (JSValue.object [("a", JSValue.number 1)] (some "Object")) =
      true ∧
    ∃ b, isObject (JSValue.object [("a", JSValue.number 1)] (some "Object")) =
        .ok b ∧
      ([isNull (JSValue.object [("a", JSValue.number 1)] (some "Object")),
        isBoolean (JSValue.object [("a", JSValue.number 1)] (some "Object")),
        isNumber (JSValue.object [("a", JSValue.number 1)] (some "Object")),
        isString (JSValue.object [("a", JSValue.number 1)] (some "Object")),
        isArray (JSValue.object [("a", JSValue.number 1)] (some "Object")),
        b].count true = 1) :=
  ⟨rfl, predicates_partition _ rfl⟩

/-- C8: `isObject` is not total over the object variant: on a structurally
well-formed JSON object built without a prototype (no `constructor`
property) it throws a TypeError instead of returning a boolean. -/
theorem isObject_throws_on_prototype_less :
    isObject (JSValue.object [("a", JSValue.number 1)] none) =
      .error ⟨"TypeError", "Cannot read properties of undefined"⟩ ∧
    wellFormedFields [("a", JSValue.number 1)] = true :=
  ⟨rfl, rfl⟩

/-! ## Round-trip machinery: digits and numbers -/

/-- The digit characters are decimal digits. -/
theorem digitChar_isDigit (d : Nat) (h : d < 10) : (digitChar d).isDigit = true := by
  interval_cases d <;> decide

/-- Code point of a digit character. -/
theorem digitChar_toNat (d : Nat) (h : d < 10) : (digitChar d).toNat = 48 + d := by
  interval_cases d <;> decide

/-- A digit character is none of the parser's structural characters. -/
theorem digitChar_not_special (d : Nat) (h : d < 10) :
    isWs (digitChar d) = false ∧ digitChar d ≠ '-' ∧ digitChar d ≠ 'n' ∧
    digitChar d ≠ 't' ∧ digitChar d ≠ 'f' ∧ digitChar d ≠ '"' ∧
    digitChar d ≠ '[' ∧ digitChar d ≠ ']' ∧ digitChar d ≠ lbrace ∧
    digitChar d ≠ rbrace := by
  interval_cases d <;> decide

/-- The digit string of a natural number is nonempty and starts with a
digit character. -/
theorem natDigits_head (n : Nat) :
    ∃ d t, d < 10 ∧ natDigits n = digitChar d :: t := by
  induction n using Nat.strong_induction_on with
  | _ n ih =>
    by_cases h : n < 10
    · exact ⟨n, [], h, by rw [natDigits, dif_pos h]⟩
    · have hdiv : n / 10 < n := by
        refine Nat.div_lt_self ?_ ?_ <;> omega
      obtain ⟨d, t, hd, ht⟩ := ih (n / 10) hdiv
      refine ⟨d, t ++ [digitChar (n % 10)], hd, ?_⟩
      rw [natDigits, dif_neg h, ht]
      rfl

/-- Every character of a digit string is a digit. -/
theorem natDigits_all_digits (n : Nat) : ∀ c ∈ natDigits n, c.isDigit = true := by
  induction n using Nat.strong_induction_on with
  | _ n ih =>
    intro c hc
    by_cases h : n < 10
    · rw [natDigits, dif_pos h, List.mem_singleton] at hc
      exact hc ▸ digitChar_isDigit n h
    · rw [natDigits, dif_neg h, List.mem_append] at hc
      have hdiv : n / 10 < n := by
        refine Nat.div_lt_self ?_ ?_ <;> omega
      cases hc with
      | inl h1 => exact ih (n / 10) hdiv c h1
      | inr h2 =>
        rw [List.mem_singleton] at h2
        exact h2 ▸ digitChar_isDigit (n % 10) (Nat.mod_lt _ (by omega))

/-- Folding one more digit. -/
theorem digitsVal_append_one (ds : List Char) (c : Char) :
    digitsVal (ds ++ [c]) = 10 * digitsVal ds + (c.toNat - 48) := by
  simp [digitsVal, List.foldl_append]

/-- The digit fold inverts digit printing. -/
theorem digitsVal_natDigits (n : Nat) : digitsVal (natDigits n) = n := by
  induction n using Nat.strong_induction_on with
  | _ n ih =>
    by_cases h : n < 10
    · rw [natDigits, dif_pos h]
      simp [digitsVal, digitChar_toNat n h]
    · have hdiv : n / 10 < n := by
        refine Nat.div_lt_self ?_ ?_ <;> omega
      rw [natDigits, dif_neg h, digitsVal_append_one, ih (n / 10) hdiv,
        digitChar_toNat _ (Nat.mod_lt _ (by omega))]
      omega

/-- `takeWhile` runs through a prefix all of whose elements satisfy the
predicate. -/
theorem takeWhile_append_all {α : Type} (p : α → Bool) (l1 l2 : List α)
    (h : ∀ c ∈ l1, p c = true) :
    (l1 ++ l2).takeWhile p = l1 ++ l2.takeWhile p := by
  induction l1 with
  | nil => simp
  | cons a t ih =>
    have hrest : ∀ c ∈ t, p c = true := by
      intro c hc
      exact h c (List.mem_cons_of_mem a hc)
    rw [List.cons_append, List.takeWhile_cons,
      h a (List.mem_cons_self a t), if_pos rfl, ih hrest, List.cons_append]

/-- `dropWhile` drops a prefix all of whose elements satisfy the
predicate. -/
theorem dropWhile_append_all {α : Type} (p : α → Bool) (l1 l2 : List α)
    (h : ∀ c ∈ l1, p c = true) :
    (l1 ++ l2).dropWhile p = l2.dropWhile p := by
  induction l1 with
  | nil => simp
  | cons a t ih =>
    have hrest : ∀ c ∈ t, p c = true := by
      intro c hc
      exact h c (List.mem_cons_of_mem a hc)
    rw [List.cons_append, List.dropWhile_cons,
      h a (List.mem_cons_self a t), if_pos rfl, ih hrest]

/-- A digit-free head stops `takeWhile isDigit` immediately. -/
theorem takeWhile_isDigit_noDigitHead (l : List Char) (h : noDigitHead l = true) :
    l.takeWhile Char.isDigit = [] := by
  cases l with
  | nil => rfl
  | cons c t =>
    simp only [noDigitHead, Bool.not_eq_eq_eq_not, Bool.not_true] at h
    simp [List.takeWhile_cons, h]

/-- A digit-free head stops `dropWhile isDigit` immediately. -/
theorem dropWhile_isDigit_noDigitHead (l : List Char) (h : noDigitHead l = true) :
    l.dropWhile Char.isDigit = l := by
  cases l with
  | nil => rfl
  | cons c t =>
    simp only [noDigitHead, Bool.not_eq_eq_eq_not, Bool.not_true] at h
    simp [List.dropWhile_cons, h]

/-- `parseNat` inverts digit printing when the remainder starts with a
non-digit. -/
theorem parseNat_natDigits (n : Nat) (rest : List Char)
    (h : noDigitHead rest = true) :
    parseNat (natDigits n ++ rest) = some (n, rest) := by
  have htake : (natDigits n ++ rest).takeWhile Char.isDigit = natDigits n := by
    rw [takeWhile_append_all _ _ _ (natDigits_all_digits n),
      takeWhile_isDigit_noDigitHead rest h, List.append_nil]
  have hdrop : (natDigits n ++ rest).dropWhile Char.isDigit = rest := by
    rw [dropWhile_append_all _ _ _ (natDigits_all_digits n),
      dropWhile_isDigit_noDigitHead rest h]
  obtain ⟨d, t, hd, ht⟩ := natDigits_head n
  unfold parseNat
  rw [htake, hdrop, ht]
  simp only []
  rw [← ht, digitsVal_natDigits]

/-- `parseNumber` inverts integer printing when the remainder starts with
a non-digit. -/
theorem parseNumber_intDigits (n : Int) (rest : List Char)
    (h : noDigitHead rest = true) :
    parseNumber (intDigits n ++ rest) = some (n, rest) := by
  by_cases hneg : n < 0
  · rw [intDigits, if_pos hneg, List.cons_append, parseNumber, if_pos rfl,
      parseNat_natDigits _ _ h]
    have hn : -(n.natAbs : Int) = n := by omega
    show some (-(n.natAbs : Int), rest) = some (n, rest)
    rw [hn]
  · rw [intDigits, if_neg hneg]
    obtain ⟨d, t, hd, ht⟩ := natDigits_head n.natAbs
    rw [ht, List.cons_append, parseNumber,
      if_neg (digitChar_not_special d hd).2.1, ← List.cons_append, ← ht,
      parseNat_natDigits _ _ h]
    have hn : (n.natAbs : Int) = n := by omega
    show some ((n.natAbs : Int), rest) = some (n, rest)
    rw [hn]

/-! ## Round-trip machinery: strings, whitespace, heads -/

/-- `parseStringBody` inverts the serializer's escaping. -/
theorem parseStringBody_escape (s : List Char) (rest : List Char) :
    parseStringBody (escapeChars s ++ '"' :: rest) = some (s, rest) := by
  induction s with
  | nil =>
    rw [escapeChars, List.nil_append, parseStringBody, if_pos rfl]
  | cons c cs ih =>
    by_cases hq : c = '"'
    · subst hq
      rw [escapeChars, if_pos rfl, List.cons_append, List.cons_append,
        parseStringBody, if_neg (by decide), if_pos rfl, parseEscape]
      show (match escChar '"' with
        | none => none
        | some c₁ =>
          match parseStringBody (escapeChars cs ++ '"' :: rest) with
          | none => none
          | some (s, r) => some (c₁ :: s, r)) = some ('"' :: cs, rest)
      rw [ih]
      rfl
    · by_cases hb : c = '\\'
      · subst hb
        rw [escapeChars, if_neg (by decide), if_pos rfl, List.cons_append,
          List.cons_append, parseStringBody, if_neg (by decide), if_pos rfl,
          parseEscape]
        show (match escChar '\\' with
          | none => none
          | some c₁ =>
            match parseStringBody (escapeChars cs ++ '"' :: rest) with
            | none => none
            | some (s, r) => some (c₁ :: s, r)) = some ('\\' :: cs, rest)
        rw [ih]
        rfl
      · rw [escapeChars, if_neg hq, if_neg hb, List.cons_append,
          parseStringBody, if_neg hq, if_neg hb, ih]

/-- Skipping whitespace does nothing on a non-whitespace head. -/
theorem skipWs_cons_not_ws (c : Char) (t : List Char) (h : isWs c = false) :
    skipWs (c :: t) = c :: t := by
  simp [skipWs, List.dropWhile_cons, h]

/-- Rebuilding a string from its character list. -/
theorem string_mk_toList (s : String) : String.mk s.toList = s := by
  cases s
  rfl

/-- The rendering of any value begins with a character that is not
whitespace, not `]` and not the closing brace. -/
theorem render_head (v : JSValue) :
    ∃ c t, render v = c :: t ∧ isWs c = false ∧ c ≠ ']' ∧ c ≠ rbrace := by
  cases v with
  | null =>
    exact ⟨'n', ['u', 'l', 'l'], by simp [render], by decide, by decide, by decide⟩
  | undefined =>
    exact ⟨'n', ['u', 'l', 'l'], by simp [render], by decide, by decide, by decide⟩
  | boolean b =>
    cases b with
    | true =>
      exact ⟨'t', ['r', 'u', 'e'], by simp [render], by decide, by decide, by decide⟩
    | false =>
      exact ⟨'f', ['a', 'l', 's', 'e'], by simp [render], by decide, by decide,
        by decide⟩
  | number n =>
    by_cases hneg : n < 0
    · exact ⟨'-', natDigits n.natAbs, by simp [render, intDigits, hneg],
        by decide, by decide, by decide⟩
    · obtain ⟨d, t, hd, ht⟩ := natDigits_head n.natAbs
      obtain ⟨w1, _, _, _, _, _, _, w8, _, w10⟩ := digitChar_not_special d hd
      exact ⟨digitChar d, t, by simp [render, intDigits, hneg, ht], w1, w8, w10⟩
  | string s =>
    exact ⟨'"', escapeChars s.toList ++ ['"'], by simp [render, renderString],
      by decide, by decide, by decide⟩
  | array elems =>
    exact ⟨'[', renderElems elems ++ [']'], by simp [render], by decide,
      by decide, by decide⟩
  | object fields ctor =>
    exact ⟨lbrace, renderMembers fields ++ [rbrace], by simp [render],
      by decide, by decide, by decide⟩

/-! ## Round-trip machinery: sizes -/

/-- Every value has positive size. -/
theorem sizeVal_pos (v : JSValue) : 1 ≤ sizeVal v := by
  cases v <;> simp [sizeVal]

/-- The size of a well-formed value is bounded by the length of its
rendering (each recursion level consumes at least one character). -/
theorem size_render_bound (n : Nat) :
    (∀ v, wellFormed v = true → sizeVal v ≤ n →
      sizeVal v ≤ (render v).length) ∧
    (∀ l, wellFormedList l = true → sizeList l ≤ n →
      sizeList l ≤ 1 + (renderElems l).length) ∧
    (∀ fs, wellFormedFields fs = true → sizeFields fs ≤ n →
      sizeFields fs ≤ 1 + (renderMembers fs).length) := by
  induction n with
  | zero =>
    refine ⟨fun v hwf hsz => ?_, fun l hwf hsz => ?_, fun fs hwf hsz => ?_⟩
    · exact absurd hsz (by have := sizeVal_pos v; omega)
    · cases l with
      | nil => simp [sizeList]
      | cons w t => simp [sizeList] at hsz
    · cases fs with
      | nil => simp [sizeFields]
      | cons p t =>
        obtain ⟨k, w⟩ := p
        simp [sizeFields] at hsz
  | succ n ih =>
    obtain ⟨ihV, ihL, ihF⟩ := ih
    refine ⟨fun v hwf hsz => ?_, fun l hwf hsz => ?_, fun fs hwf hsz => ?_⟩
    · cases v with
      | null => simp [sizeVal, render]
      | undefined => simp [wellFormed] at hwf
      | boolean b => cases b <;> simp [sizeVal, render]
      | number m =>
        obtain ⟨d, t, hd, ht⟩ := natDigits_head m.natAbs
        by_cases hneg : m < 0 <;>
          simp [sizeVal, render, intDigits, hneg, ht]
      | string s => simp [sizeVal, render, renderString]
      | array elems =>
        have h1 : sizeList elems ≤ n := by
          simp [sizeVal] at hsz; omega
        have h2 := ihL elems (by simpa [wellFormed] using hwf) h1
        simp [sizeVal, render]
        omega
      | object fields ctor =>
        have hwf2 : wellFormedFields fields = true := by
          simp [wellFormed, Bool.and_eq_true] at hwf
          exact hwf.2
        have h1 : sizeFields fields ≤ n := by
          simp [sizeVal] at hsz; omega
        have h2 := ihF fields hwf2 h1
        simp [sizeVal, render]
        omega
    · cases l with
      | nil => simp [sizeList]
      | cons w t =>
        obtain ⟨hw, ht⟩ : wellFormed w = true ∧ wellFormedList t = true := by
          simpa [wellFormedList, Bool.and_eq_true] using hwf
        have hw1 : sizeVal w ≤ n := by simp [sizeList] at hsz; omega
        have h2 := ihV w hw hw1
        cases t with
        | nil =>
          rw [renderElems]
          simp [sizeList, sizeFields] at hsz ⊢
          omega
        | cons u t2 =>
          have ht1 : sizeList (u :: t2) ≤ n := by
            have := sizeVal_pos w
            simp [sizeList] at hsz ⊢
            omega
          have h3 := ihL (u :: t2) ht ht1
          rw [renderElems]
          · simp [sizeList] at hsz ⊢
            simp [sizeList, List.length_append] at h3 ⊢
            omega
          · simp
    · cases fs with
      | nil => simp [sizeFields]
      | cons p t =>
        obtain ⟨k, w⟩ := p
        obtain ⟨hw, ht⟩ : wellFormed w = true ∧ wellFormedFields t = true := by
          simpa [wellFormedFields, Bool.and_eq_true] using hwf
        have hw1 : sizeVal w ≤ n := by simp [sizeFields] at hsz; omega
        have h2 := ihV w hw hw1
        have hwu : isUndef w = false := wellFormed_not_undef w hw
        cases t with
        | nil =>
          rw [renderMembers]
          simp [hwu, sizeFields, renderString] at hsz ⊢
          omega
        | cons q t2 =>
          obtain ⟨k2, w2⟩ := q
          have hw2 : wellFormed w2 = true := by
            simp [wellFormedFields, Bool.and_eq_true] at ht
            exact ht.1
          have hany : ((k2, w2) :: t2).any (fun p => !isUndef p.2) = true := by
            simp [List.any_cons, wellFormed_not_undef w2 hw2]
          have ht1 : sizeFields ((k2, w2) :: t2) ≤ n := by
            have := sizeVal_pos w
            simp [sizeFields] at hsz ⊢
            omega
          have h3 := ihF ((k2, w2) :: t2) ht ht1
          rw [renderMembers]
          simp [hwu, hany, sizeFields, renderString] at hsz ⊢
          simp [sizeFields, List.length_append] at h3 ⊢
          omega

/-- Fuel sufficiency for the top-level parse of a rendered value. -/
theorem sizeVal_le_render_length (v : JSValue) (h : wellFormed v = true) :
    sizeVal v ≤ (render v).length :=
  (size_render_bound (sizeVal v)).1 v h le_rfl

/-! ## Round-trip machinery: the parser inverts the serializer -/

/-- One fuel step for element lists: `parseElements` inverts `renderElems`
given the induction hypotheses at the previous fuel. -/
theorem parseElements_step (f : Nat)
    (ihV : ∀ v rest, wellFormed v = true → sizeVal v ≤ f →
      noDigitHead rest = true → parseValue f (render v ++ rest) = some (v, rest))
    (ihL : ∀ l rest, wellFormedList l = true → l ≠ [] → sizeList l ≤ f →
      parseElements f (renderElems l ++ ']' :: rest) = some (l, rest)) :
    ∀ l rest, wellFormedList l = true → l ≠ [] → sizeList l ≤ f + 1 →
      parseElements (f + 1) (renderElems l ++ ']' :: rest) = some (l, rest) := by
  intro l rest hwf hne hsz
  cases l with
  | nil => exact absurd rfl hne
  | cons w t =>
    obtain ⟨hw, ht⟩ : wellFormed w = true ∧ wellFormedList t = true := by
      simpa [wellFormedList, Bool.and_eq_true] using hwf
    have hszw : sizeVal w ≤ f := by simp [sizeList] at hsz; omega
    cases t with
    | nil =>
      rw [renderElems, parseElements, ihV w (']' :: rest) hw hszw rfl]
      rfl
    | cons u t2 =>
      have hne2 : u :: t2 ≠ [] := by simp
      have hszt : sizeList (u :: t2) ≤ f := by
        have := sizeVal_pos w
        simp [sizeList] at hsz ⊢
        omega
      rw [renderElems]
      · rw [List.append_assoc, List.cons_append, parseElements,
          ihV w (',' :: (renderElems (u :: t2) ++ ']' :: rest)) hw hszw rfl]
        simp [skipWs, List.dropWhile_cons, isWs,
          ihL (u :: t2) rest ht hne2 hszt]
      · simp

/-- One fuel step for member lists: `parseMembers` inverts `renderMembers`
given the induction hypotheses at the previous fuel. -/
theorem parseMembers_step (f : Nat)
    (ihV : ∀ v rest, wellFormed v = true → sizeVal v ≤ f →
      noDigitHead rest = true → parseValue f (render v ++ rest) = some (v, rest))
    (ihF : ∀ fs rest, wellFormedFields fs = true → fs ≠ [] → sizeFields fs ≤ f →
      parseMembers f (renderMembers fs ++ rbrace :: rest) = some (fs, rest)) :
    ∀ fs rest, wellFormedFields fs = true → fs ≠ [] → sizeFields fs ≤ f + 1 →
      parseMembers (f + 1) (renderMembers fs ++ rbrace :: rest) = some (fs, rest) := by
  intro fs rest hwf hne hsz
  cases fs with
  | nil => exact absurd rfl hne
  | cons p t =>
    obtain ⟨k, w⟩ := p
    obtain ⟨hw, ht⟩ : wellFormed w = true ∧ wellFormedFields t = true := by
      simpa [wellFormedFields, Bool.and_eq_true] using hwf
    have hwu : isUndef w = false := wellFormed_not_undef w hw
    have hszw : sizeVal w ≤ f := by simp [sizeFields] at hsz; omega
    cases t with
    | nil =>
      have hrm : renderMembers [(k, w)] = renderString k ++ (':' :: render w) := by
        rw [renderMembers]
        simp [hwu]
      rw [hrm, renderString]
      simp only [List.append_assoc, List.cons_append, List.singleton_append,
        List.nil_append]
      rw [parseMembers]
      rw [skipWs_cons_not_ws '"'
        (escapeChars k.toList ++ '"' :: (':' :: (render w ++ rbrace :: rest)))
        (by decide)]
      simp only [parseStringBody_escape k.toList
        (':' :: (render w ++ rbrace :: rest))]
      rw [skipWs_cons_not_ws ':' (render w ++ rbrace :: rest) (by decide)]
      simp only [ihV w (rbrace :: rest) hw hszw (by rfl)]
      rw [skipWs_cons_not_ws rbrace rest (by decide)]
      simp [string_mk_toList, show rbrace ≠ ',' from by decide]
    | cons q t2 =>
      obtain ⟨k2, w2⟩ := q
      have hw2 : wellFormed w2 = true := by
        simp [wellFormedFields, Bool.and_eq_true] at ht
        exact ht.1
      have hany : ((k2, w2) :: t2).any (fun p => !isUndef p.2) = true := by
        simp [List.any_cons, wellFormed_not_undef w2 hw2]
      have hne2 : (k2, w2) :: t2 ≠ [] := by simp
      have hszt : sizeFields ((k2, w2) :: t2) ≤ f := by
        have := sizeVal_pos w
        simp [sizeFields] at hsz ⊢
        omega
      have hrm : renderMembers ((k, w) :: (k2, w2) :: t2) =
          renderString k ++ (':' :: render w) ++
            (',' :: renderMembers ((k2, w2) :: t2)) := by
        rw [renderMembers]
        simp [hwu, hany]
      rw [hrm, renderString]
      simp only [List.append_assoc, List.cons_append, List.singleton_append,
        List.nil_append]
      rw [parseMembers]
      rw [skipWs_cons_not_ws '"'
        (escapeChars k.toList ++ '"' :: (':' :: (render w ++
          ',' :: (renderMembers ((k2, w2) :: t2) ++ rbrace :: rest))))
        (by decide)]
      simp only [parseStringBody_escape k.toList
        (':' :: (render w ++
          ',' :: (renderMembers ((k2, w2) :: t2) ++ rbrace :: rest)))]
      rw [skipWs_cons_not_ws ':'
        (render w ++ ',' :: (renderMembers ((k2, w2) :: t2) ++ rbrace :: rest))
        (by decide)]
      simp only [ihV w
        (',' :: (renderMembers ((k2, w2) :: t2) ++ rbrace :: rest))
        hw hszw (by rfl)]
      rw [skipWs_cons_not_ws ','
        (renderMembers ((k2, w2) :: t2) ++ rbrace :: rest) (by decide)]
      simp [string_mk_toList, ihF ((k2, w2) :: t2) rest ht hne2 hszt]

/-- One fuel step for values: `parseValue` inverts `render` given the
induction hypotheses at the previous fuel. -/
theorem parseValue_step (f : Nat)
    (ihL : ∀ l rest, wellFormedList l = true → l ≠ [] → sizeList l ≤ f →
      parseElements f (renderElems l ++ ']' :: rest) = some (l, rest))
    (ihF : ∀ fs rest, wellFormedFields fs = true → fs ≠ [] → sizeFields fs ≤ f →
      parseMembers f (renderMembers fs ++ rbrace :: rest) = some (fs, rest)) :
    ∀ v rest, wellFormed v = true → sizeVal v ≤ f + 1 → noDigitHead rest = true →
      parseValue (f + 1) (render v ++ rest) = some (v, rest) := by
  intro v rest hwf hsz hnd
  cases v with
  | null =>
    have hr : render JSValue.null = ['n', 'u', 'l', 'l'] := by simp [render]
    rw [hr]
    rfl
  | undefined => simp [wellFormed] at hwf
  | boolean b =>
    cases b with
    | true =>
      have hr : render (JSValue.boolean true) = ['t', 'r', 'u', 'e'] := by
        simp [render]
      rw [hr]
      rfl
    | false =>
      have hr : render (JSValue.boolean false) = ['f', 'a', 'l', 's', 'e'] := by
        simp [render]
      rw [hr]
      rfl
  | number m =>
    have hr : render (JSValue.number m) = intDigits m := by simp [render]
    rw [hr]
    by_cases hneg : m < 0
    · have hin : intDigits m = '-' :: natDigits m.natAbs := by
        rw [intDigits, if_pos hneg]
      have hpn : parseNumber ('-' :: (natDigits m.natAbs ++ rest)) =
          some (m, rest) := by
        rw [← List.cons_append, ← hin]
        exact parseNumber_intDigits m rest hnd
      rw [hin, List.cons_append, parseValue,
        skipWs_cons_not_ws '-' (natDigits m.natAbs ++ rest) (by decide)]
      simp [show ('-' : Char) ≠ lbrace from by decide, hpn]
    · have hin : intDigits m = natDigits m.natAbs := by
        rw [intDigits, if_neg hneg]
      obtain ⟨d, t, hd, ht⟩ := natDigits_head m.natAbs
      obtain ⟨w1, w2, w3, w4, w5, w6, w7, _, w9, _⟩ := digitChar_not_special d hd
      have hpn : parseNumber (digitChar d :: (t ++ rest)) = some (m, rest) := by
        rw [← List.cons_append, ← ht, ← hin]
        exact parseNumber_intDigits m rest hnd
      rw [hin, ht, List.cons_append, parseValue,
        skipWs_cons_not_ws (digitChar d) (t ++ rest) w1]
      simp [w2, w3, w4, w5, w6, w7, w9, digitChar_isDigit d hd, hpn]
  | string s =>
    have hr : render (JSValue.string s) =
        '"' :: (escapeChars s.toList ++ ['"']) := by
      simp [render, renderString]
    rw [hr, List.cons_append, List.append_assoc, List.singleton_append,
      parseValue,
      skipWs_cons_not_ws '"' (escapeChars s.toList ++ '"' :: rest) (by decide)]
    simp [parseStringBody_escape s.data rest]
  | array elems =>
    have hr : render (JSValue.array elems) =
        '[' :: (renderElems elems ++ [']']) := by
      simp [render]
    rw [hr, List.cons_append, List.append_assoc, List.singleton_append,
      parseValue,
      skipWs_cons_not_ws '[' (renderElems elems ++ ']' :: rest) (by decide)]
    cases elems with
    | nil =>
      rw [renderElems, List.nil_append]
      rfl
    | cons w t =>
      have hwl : wellFormedList (w :: t) = true := by
        simpa [wellFormed] using hwf
      have hsl : sizeList (w :: t) ≤ f := by
        simp [sizeVal] at hsz
        omega
      obtain ⟨c, ct, hct, hc1, hc2, hc3⟩ := render_head w
      obtain ⟨Z, hZ⟩ : ∃ Z, renderElems (w :: t) ++ ']' :: rest = c :: Z := by
        cases t with
        | nil =>
          exact ⟨ct ++ ']' :: rest, by rw [renderElems, hct, List.cons_append]⟩
        | cons u t2 =>
          refine ⟨ct ++ ',' :: (renderElems (u :: t2) ++ ']' :: rest), ?_⟩
          rw [renderElems]
          · rw [hct]
            simp [List.cons_append, List.append_assoc]
          · simp
      have hskip : skipWs (renderElems (w :: t) ++ ']' :: rest) = c :: Z := by
        rw [hZ]
        exact skipWs_cons_not_ws c Z hc1
      simp [hskip, hc2, ihL (w :: t) rest hwl (by simp) hsl]
  | object fields ctor =>
    obtain ⟨hc, hffs⟩ : ctor = some "Object" ∧ wellFormedFields fields = true := by
      simpa [wellFormed, Bool.and_eq_true, decide_eq_true_eq] using hwf
    subst hc
    have hr : render (JSValue.object fields (some "Object")) =
        lbrace :: (renderMembers fields ++ [rbrace]) := by
      simp [render]
    rw [hr, List.cons_append, List.append_assoc, List.singleton_append,
      parseValue,
      skipWs_cons_not_ws lbrace (renderMembers fields ++ rbrace :: rest)
        (by decide)]
    cases fields with
    | nil =>
      rw [renderMembers, List.nil_append]
      rfl
    | cons p t =>
      obtain ⟨k, w⟩ := p
      have hsf : sizeFields ((k, w) :: t) ≤ f := by
        simp [sizeVal] at hsz
        omega
      obtain ⟨hw1, hwt⟩ : wellFormed w = true ∧ wellFormedFields t = true := by
        simpa [wellFormedFields, Bool.and_eq_true] using hffs
      have hwu : isUndef w = false := wellFormed_not_undef w hw1
      obtain ⟨Y, hY⟩ : ∃ Y, renderMembers ((k, w) :: t) = '"' :: Y := by
        rw [renderMembers]
        simp only [hwu, Bool.false_eq_true, if_false, renderString,
          List.cons_append, List.append_assoc]
        exact ⟨_, rfl⟩
      have hskip : skipWs (renderMembers ((k, w) :: t) ++ rbrace :: rest) =
          '"' :: (Y ++ rbrace :: rest) := by
        rw [hY, List.cons_append]
        exact skipWs_cons_not_ws '"' (Y ++ rbrace :: rest) (by decide)
      simp [hskip, show lbrace ≠ 'n' from by decide,
        show lbrace ≠ 't' from by decide, show lbrace ≠ 'f' from by decide,
        show lbrace ≠ '"' from by decide, show lbrace ≠ '[' from by decide,
        show ('"' : Char) ≠ rbrace from by decide,
        ihF ((k, w) :: t) rest hffs (by simp) hsf]

/-- The fueled parser inverts the serializer on well-formed values, given
enough fuel. -/
theorem parse_render (fuel : Nat) :
    (∀ v rest, wellFormed v = true → sizeVal v ≤ fuel → noDigitHead rest = true →
      parseValue fuel (render v ++ rest) = some (v, rest)) ∧
    (∀ l rest, wellFormedList l = true → l ≠ [] → sizeList l ≤ fuel →
      parseElements fuel (renderElems l ++ ']' :: rest) = some (l, rest)) ∧
    (∀ fs rest, wellFormedFields fs = true → fs ≠ [] → sizeFields fs ≤ fuel →
      parseMembers fuel (renderMembers fs ++ rbrace :: rest) = some (fs, rest)) := by
  induction fuel with
  | zero =>
    refine ⟨fun v rest hwf hsz hnd => ?_, fun l rest hwf hne hsz => ?_,
      fun fs rest hwf hne hsz => ?_⟩
    · exact absurd hsz (by have := sizeVal_pos v; omega)
    · cases l with
      | nil => exact absurd rfl hne
      | cons w t => simp [sizeList] at hsz
    · cases fs with
      | nil => exact absurd rfl hne
      | cons p t =>
        obtain ⟨k, w⟩ := p
        simp [sizeFields] at hsz
  | succ f ih =>
    exact ⟨parseValue_step f ih.2.1 ih.2.2,
      parseElements_step f ih.1 ih.2.1,
      parseMembers_step f ih.1 ih.2.2⟩

/-- The host-parse model inverts the host-stringify model on well-formed
values. -/
theorem jsonParse_render (v : JSValue) (h : wellFormed v = true) :
    jsonParse (String.mk (render v)) = .ok v := by
  have h1 : parseValue (render v).length (render v ++ []) = some (v, []) :=
    (parse_render (render v).length).1 v [] h
      (sizeVal_le_render_length v h) rfl
  rw [List.append_nil] at h1
  simp [jsonParse, show (String.mk (render v)).toList = render v from rfl, h1,
    skipWs]

/-- On the embedded value domain the host serializer model succeeds with
the rendered text on every well-formed value. -/
theorem stringify_wf (v : JSValue) (h : wellFormed v = true) :
    stringify v = .ok (String.mk (render v)) := by
  cases v with
  | undefined => simp [wellFormed] at h
  | null => rfl
  | boolean b => rfl
  | number n => rfl
  | string s => rfl
  | array elems => rfl
  | object fields ctor => rfl

/-! ## C1: the round-trip guarantee -/

/-- C1: for every well-formed value (the embedded domain has no property
accessors, so none can throw), `stringify` returns `Ok(text)` and parsing
that text succeeds and yields the identical value. -/
theorem stringify_parse_roundtrip (v : JSValue) (h : wellFormed v = true) :
    ∃ text, stringify v = .ok text ∧ parse text = .ok v := by
  refine ⟨String.mk (render v), stringify_wf v h, ?_⟩
  unfold parse
  rw [jsonParse_render v h]
  exact parseWith_ok_wf v h

/-- Witness for C1 at a concrete nested value exercising every variant. -/
theorem stringify_parse_roundtrip_witness :
    wellFormed (JSValue.object
      [("a", JSValue.number (-12)),
       ("b", JSValue.array
         [JSValue.null, JSValue.boolean true, JSValue.string "x\"y"]),
       ("c", JSValue.object [] (some "Object"))] (some "Object")) = true ∧
    ∃ text,
      stringify (JSValue.object
        [("a", JSValue.number (-12)),
         ("b", JSValue.array
           [JSValue.null, JSValue.boolean true, JSValue.string "x\"y"]),
         ("c", JSValue.object [] (some "Object"))] (some "Object")) =
        .ok text ∧
      parse text =
        .ok (JSValue.object
          [("a", JSValue.number (-12)),
           ("b", JSValue.array
             [JSValue.null, JSValue.boolean true, JSValue.string "x\"y"]),
           ("c", JSValue.object [] (some "Object"))] (some "Object")) :=
  ⟨rfl, stringify_parse_roundtrip _ rfl⟩
